import Mathlib

/-!
Verification of the dataset analyzer of the data-analysis dashboard.

The analyzed program is the pure function `analyze` of the data-analyzer
component, together with its helper `round` and the `percentile` closure it
returns.  The embedding has two layers:

* Layer 1 (`JsNum`, `RawValue`, `coerce`) models the per-element coercion
  step over the full JavaScript number domain, including the special values
  NaN and positive/negative infinity, because the coercion filter
  distinguishes NaN (`!isNaN(x)`) but not infinities.  The builtin
  string-to-number conversion `Number` is an explicit parameter
  `parse : String → JsNum`; the coercion keeps a string exactly when its
  trimmed form is nonempty and its parse is not NaN, exactly as the source
  does.

* Layer 1.5 (`jsAdd` … `jsDiv`, `jsLt`/`jsLe`/`jsEq`, `analyzeJ`,
  `percentileJ`) models the whole of `analyze` over the full JavaScript
  number domain with the exact special-value arithmetic of NaN and the
  infinities (these rules are exact, not approximations: floating-point
  rounding error is the only aspect left out).  It is used to witness what
  the source actually does on runs whose coerced values include
  infinities, which the coercion keeps.

* Layer 2 (`RawQ`, `analyze`, and friends) models the whole of `analyze`
  over exact rational arithmetic: input numbers are finite rationals, and
  the builtin `Number` is a parameter `parse : String → Option ℚ` where
  `some q` models a string whose numeric parse is the finite number `q` and
  `none` models a string whose parse is NaN.  This layer is the domain of
  the claims that assume (explicitly, or after amendment) that every
  coerced value is finite.  The source computes
  `stddev = Math.sqrt(variance)`, an irrational-valued operation; the
  embedded result record carries the exact radicand `variance` instead
  (standard deviation is its square root, and its rounding is that of the
  shared `round` helper applied to the square root).

The in-place `nums.sort((a, b) => a - b)` of the source is modeled as
`List.insertionSort (· ≤ ·)`: on lists of rationals every comparison sort
agrees, since elements that compare equal are identical values.
-/

/-- A JavaScript number: NaN, one of the two infinities, or a finite value
(modeled as an exact rational). -/
inductive JsNum where
  | nan
  | posInf
  | negInf
  | fin (q : ℚ)
  deriving DecidableEq

/-- `isNaN x` for a JavaScript number `x`: true exactly on NaN.  In
particular both infinities are not NaN. -/
def jsIsNaN : JsNum → Bool
  | .nan => true
  | _ => false

/-- `isFinite x` for a JavaScript number `x`: true exactly on finite
values. -/
def jsIsFinite : JsNum → Bool
  | .fin _ => true
  | _ => false

/-- A heterogeneous raw input element as fed to `analyze`: a number
(possibly NaN or infinite), a string (modeled as its character sequence),
null/undefined-like missing markers, or a boolean. -/
inductive RawValue where
  | num (x : JsNum)
  | str (s : List Char)
  | nullV
  | boolV (b : Bool)
  deriving DecidableEq

/-- `s.trim()` on a string modeled as a character sequence: drop whitespace
from both ends. -/
def jsTrim (s : List Char) : List Char :=
  ((s.dropWhile Char.isWhitespace).reverse.dropWhile Char.isWhitespace).reverse

/-- The per-element coercion step of `analyze` (the `.map` callback of the
source): a number is kept when it is not NaN; a string is kept, as its
parsed number, when its trim is nonempty and its parse is not NaN; every
other element is discarded.  `parse` stands for the builtin `Number`. -/
def coerce (parse : List Char → JsNum) : RawValue → Option JsNum
  | .num x => if jsIsNaN x = false then some x else none
  | .str s => if jsTrim s ≠ [] ∧ jsIsNaN (parse s) = false then some (parse s) else none
  | .nullV => none
  | .boolV _ => none

/-- A concrete stand-in for `Number` that parses nothing: every string maps
to NaN.  Used to instantiate closed statements about the number branch of
the coercion, which never consults the parser. -/
def parseNaN : List Char → JsNum := fun _ => JsNum.nan

/-- A concrete stand-in for `Number` on which every string parses to
positive infinity, as "Infinity" does under the real `Number`. -/
def parseInf : List Char → JsNum := fun _ => JsNum.posInf

/-- JavaScript addition on the full number domain: NaN is absorbing, the
two infinities annihilate to NaN, an infinity absorbs finite values, and
finite values add exactly. -/
def jsAdd : JsNum → JsNum → JsNum
  | .nan, _ => .nan
  | _, .nan => .nan
  | .posInf, .negInf => .nan
  | .negInf, .posInf => .nan
  | .posInf, _ => .posInf
  | _, .posInf => .posInf
  | .negInf, _ => .negInf
  | _, .negInf => .negInf
  | .fin a, .fin b => .fin (a + b)

/-- JavaScript negation on the full number domain. -/
def jsNeg : JsNum → JsNum
  | .nan => .nan
  | .posInf => .negInf
  | .negInf => .posInf
  | .fin q => .fin (-q)

/-- JavaScript subtraction: `x - y` behaves as `x + (-y)`. -/
def jsSub (a b : JsNum) : JsNum := jsAdd a (jsNeg b)

/-- JavaScript multiplication on the full number domain: NaN is absorbing,
infinity times zero is NaN, infinity times a nonzero value follows the
sign rule, and finite values multiply exactly. -/
def jsMul : JsNum → JsNum → JsNum
  | .nan, _ => .nan
  | _, .nan => .nan
  | .posInf, .posInf => .posInf
  | .posInf, .negInf => .negInf
  | .negInf, .posInf => .negInf
  | .negInf, .negInf => .posInf
  | .posInf, .fin q => if q = 0 then .nan else if 0 < q then .posInf else .negInf
  | .fin q, .posInf => if q = 0 then .nan else if 0 < q then .posInf else .negInf
  | .negInf, .fin q => if q = 0 then .nan else if 0 < q then .negInf else .posInf
  | .fin q, .negInf => if q = 0 then .nan else if 0 < q then .negInf else .posInf
  | .fin a, .fin b => .fin (a * b)

/-- JavaScript division on the full number domain: NaN is absorbing, an
infinity divided by an infinity is NaN, an infinity divided by a finite
value keeps the sign rule, a finite value divided by an infinity is zero,
and division of a nonzero finite value by zero overflows to a signed
infinity. -/
def jsDiv : JsNum → JsNum → JsNum
  | .nan, _ => .nan
  | _, .nan => .nan
  | .posInf, .posInf => .nan
  | .posInf, .negInf => .nan
  | .negInf, .posInf => .nan
  | .negInf, .negInf => .nan
  | .posInf, .fin q => if 0 ≤ q then .posInf else .negInf
  | .negInf, .fin q => if 0 ≤ q then .negInf else .posInf
  | .fin _, .posInf => .fin 0
  | .fin _, .negInf => .fin 0
  | .fin a, .fin b =>
    if b = 0 then (if a = 0 then .nan else if 0 < a then .posInf else .negInf)
    else .fin (a / b)

/-- JavaScript strict less-than: false whenever either side is NaN. -/
def jsLt : JsNum → JsNum → Bool
  | .nan, _ => false
  | _, .nan => false
  | .negInf, .negInf => false
  | .negInf, _ => true
  | _, .negInf => false
  | .posInf, .posInf => false
  | _, .posInf => true
  | .posInf, _ => false
  | .fin a, .fin b => decide (a < b)

/-- JavaScript less-or-equal: false whenever either side is NaN. -/
def jsLe : JsNum → JsNum → Bool
  | .nan, _ => false
  | _, .nan => false
  | .negInf, _ => true
  | _, .negInf => false
  | _, .posInf => true
  | .posInf, _ => false
  | .fin a, .fin b => decide (a ≤ b)

/-- JavaScript strict equality `===` on numbers: false whenever either
side is NaN (in particular `NaN === NaN` is false). -/
def jsEq : JsNum → JsNum → Bool
  | .fin a, .fin b => decide (a = b)
  | .posInf, .posInf => true
  | .negInf, .negInf => true
  | _, _ => false

/-- `Math.round` on the full number domain: NaN and the infinities map to
themselves, finite values round with ties toward positive infinity. -/
def mathRoundJ : JsNum → JsNum
  | .nan => .nan
  | .posInf => .posInf
  | .negInf => .negInf
  | .fin q => .fin (⌊q + 1 / 2⌋ : ℤ)

/-- The `round` helper (line 452) on the full number domain. -/
def roundJ (n : JsNum) (digits : ℕ) : JsNum :=
  jsDiv (mathRoundJ (jsMul n (.fin (10 ^ digits)))) (.fin (10 ^ digits))

/-- `nums.reduce((s, v) => s + v, 0)` on the full number domain. -/
def sumJ (l : List JsNum) : JsNum := l.foldl jsAdd (.fin 0)

/-- The median computation of `analyze` (lines 477-482) on the full
number domain. -/
def medianJ (l : List JsNum) : JsNum :=
  if l.length % 2 = 1 then l.getD ((l.length - 1) / 2) (.fin 0)
  else jsDiv (jsAdd (l.getD (l.length / 2 - 1) (.fin 0))
    (l.getD (l.length / 2) (.fin 0))) (.fin 2)

/-- The population variance of `analyze` (line 485) on the full number
domain. -/
def varianceJ (l : List JsNum) (avg : JsNum) : JsNum :=
  jsDiv (l.foldl (fun acc v => jsAdd acc (jsMul (jsSub v avg) (jsSub v avg)))
    (.fin 0)) (.fin (l.length : ℚ))

/-- The `percentile` closure (lines 489-497) on the full number domain:
the rank is a finite number, the looked-up elements may be infinite, and a
rank outside [0, 100] yields NaN. -/
def percentileJ (nums : List JsNum) (p : ℚ) : JsNum :=
  if p < 0 ∨ 100 < p then .nan
  else
    let idx : ℚ := (p / 100) * ((nums.length : ℚ) - 1)
    let lower : ℤ := ⌊idx⌋
    let upper : ℤ := ⌈idx⌉
    if lower = upper then nums.getD lower.toNat (.fin 0)
    else
      let weight : ℚ := idx - (lower : ℚ)
      jsAdd (jsMul (nums.getD lower.toNat (.fin 0)) (.fin (1 - weight)))
        (jsMul (nums.getD upper.toNat (.fin 0)) (.fin weight))

/-- The success record of `analyze` on the full number domain, mirroring
`Analyzer.Stats` with possibly NaN or infinite fields. -/
structure StatsJ where
  nums : List JsNum
  count : ℕ
  sum : JsNum
  avg : JsNum
  min : JsNum
  max : JsNum
  range : JsNum
  median : JsNum
  variance : JsNum
  aboveAvg : List JsNum
  belowAvg : List JsNum
  deriving DecidableEq

/-- The `analyze` function (lines 454-516) on the full JavaScript number
domain: identical structure to `Analyzer.analyze`, but the coerced values
may be infinite (the `!isNaN` filter keeps them), so the statistics are
computed with the JavaScript special-value arithmetic.  The sort comparator
`(a, b) => a - b` is consistent on the NaN-free coerced values (infinities
included; two equal infinities compare as a tie), so it is modeled by
sorting with `jsLe`. -/
def analyzeJ (parse : List Char → JsNum) (arr : List RawValue) :
    Except String StatsJ :=
  let nums0 := arr.filterMap (coerce parse)
  if nums0.length = 0 then
    .error "No valid numeric values found."
  else
    let nums := List.insertionSort (fun a b => jsLe a b = true) nums0
    let count := nums.length
    let sum := sumJ nums
    let avg := jsDiv sum (.fin (count : ℚ))
    let minV := nums.getD 0 (.fin 0)
    let maxV := nums.getD (count - 1) (.fin 0)
    let rangeV := jsSub maxV minV
    let medianV := medianJ nums
    let varianceV := varianceJ nums avg
    let aboveAvg := nums.filter (fun v => jsLt avg v)
    let belowAvg := nums.filter (fun v => jsLt v avg)
    .ok {
      nums := nums
      count := count
      sum := roundJ sum 2
      avg := roundJ avg 2
      min := minV
      max := maxV
      range := roundJ rangeV 2
      median := roundJ medianV 2
      variance := varianceV
      aboveAvg := aboveAvg
      belowAvg := belowAvg }

/-- The result of `analyze` on the input `[Infinity, -Infinity]`, which
the coercion keeps in full: the sum (and hence the average), the median
and the variance are all NaN, the range is positive infinity, and both
above/below-average sequences are empty because no comparison with a NaN
average holds. -/
def statsJInf : StatsJ where
  nums := [JsNum.negInf, JsNum.posInf]
  count := 2
  sum := JsNum.nan
  avg := JsNum.nan
  min := JsNum.negInf
  max := JsNum.posInf
  range := JsNum.posInf
  median := JsNum.nan
  variance := JsNum.nan
  aboveAvg := []
  belowAvg := []

/-- C1, counterexample: the coercion step does NOT discard non-finite
numbers.  On the one-element input consisting of the number `Infinity`, the
coerced numeric sequence is `[Infinity]` — the infinite element appears in
it, because the source filters with `!isNaN(x)` and `isNaN(Infinity)` is
false. -/
theorem c1_cex :
    List.filterMap (coerce parseNaN) [RawValue.num JsNum.posInf]
      = [JsNum.posInf] := rfl

/-- C1, amended: the coercion step discards exactly the NaN-like and
non-numeric elements — a NaN number, a string that is blank after
trimming, and a string whose numeric parse is NaN are all discarded — but
it keeps every non-NaN number, including positive and negative infinity,
and keeps every string whose trim is nonempty and whose numeric parse is
not NaN, including strings (such as "Infinity") that parse to an
infinity. -/
theorem c1_thm (parse : List Char → JsNum) (s : List Char) :
    coerce parse (RawValue.num JsNum.posInf) = some JsNum.posInf ∧
    coerce parse (RawValue.num JsNum.negInf) = some JsNum.negInf ∧
    coerce parse (RawValue.num JsNum.nan) = none ∧
    (jsTrim s = [] → coerce parse (RawValue.str s) = none) ∧
    (jsIsNaN (parse s) = true → coerce parse (RawValue.str s) = none) ∧
    (jsTrim s ≠ [] → jsIsNaN (parse s) = false →
      coerce parse (RawValue.str s) = some (parse s)) := by
  refine ⟨rfl, rfl, rfl, fun h1 => ?_, fun h2 => ?_, fun h1 h2 => ?_⟩
  · simp [coerce, h1]
  · simp [coerce, h2]
  · simp [coerce, h1, h2]

/-- C1, witness: concrete instances of all six parts of the amended
statement — the infinities and "Infinity" (under a parser sending it to
positive infinity) are kept, the NaN number, the blank string " ", and the
unparseable string "abc" (under a parser sending it to NaN) are
discarded. -/
theorem c1_witness :
    coerce parseInf (RawValue.num JsNum.posInf) = some JsNum.posInf ∧
    coerce parseInf (RawValue.num JsNum.negInf) = some JsNum.negInf ∧
    coerce parseInf (RawValue.num JsNum.nan) = none ∧
    coerce parseInf (RawValue.str " ".toList) = none ∧
    coerce parseNaN (RawValue.str "abc".toList) = none ∧
    coerce parseInf (RawValue.str "Infinity".toList)
      = some (parseInf "Infinity".toList) :=
  ⟨(c1_thm parseInf "Infinity".toList).1, (c1_thm parseInf "Infinity".toList).2.1,
    (c1_thm parseInf "Infinity".toList).2.2.1,
    (c1_thm parseInf " ".toList).2.2.2.1 (by decide),
    (c1_thm parseNaN "abc".toList).2.2.2.2.1 rfl,
    (c1_thm parseInf "Infinity".toList).2.2.2.2.2 (by decide) rfl⟩

namespace Analyzer

/-- A heterogeneous raw input element in the exact-arithmetic layer: a
finite number (an exact rational), a string, a null/missing marker, or a
boolean. -/
inductive RawQ where
  | num (q : ℚ)
  | str (s : List Char)
  | nullV
  | boolV (b : Bool)
  deriving DecidableEq

/-- `Math.round` over exact rationals: the nearest integer, with exact
halves rounding toward positive infinity. -/
def mathRound (x : ℚ) : ℤ := ⌊x + 1 / 2⌋

/-- The `round` helper of the source (line 452):
`Math.round(n * Math.pow(10, digits)) / Math.pow(10, digits)`.  The source
declares `digits = 2` as a default; every call site of `analyze` passes 2. -/
def round (n : ℚ) (digits : ℕ) : ℚ :=
  (mathRound (n * 10 ^ digits) : ℚ) / 10 ^ digits

/-- Rounding as the spec's words describe it, for comparison with the
source's `round`: multiply by `10 ^ digits`, round halves AWAY FROM ZERO to
the nearest integer, divide back. -/
def roundHalfAwayFromZero (n : ℚ) (digits : ℕ) : ℚ :=
  ((if 0 ≤ n then ⌊n * 10 ^ digits + 1 / 2⌋
    else -⌊-(n * 10 ^ digits) + 1 / 2⌋ : ℤ) : ℚ) / 10 ^ digits

/-- The per-element coercion of `analyze` in the exact-arithmetic layer.
`parse` stands for the builtin `Number` restricted to this layer: `some q`
models a string whose numeric parse is the finite value `q`, and `none`
one whose parse is NaN. -/
def coerceQ (parse : List Char → Option ℚ) : RawQ → Option ℚ
  | .num q => some q
  | .str s => if jsTrim s ≠ [] then parse s else none
  | .nullV => none
  | .boolV _ => none

/-- A concrete stand-in for `Number` that parses nothing. -/
def parseNoneQ : List Char → Option ℚ := fun _ => none

/-- `nums.reduce((s, v) => s + v, 0)` (line 470). -/
def sumOf (l : List ℚ) : ℚ := l.foldl (· + ·) 0

/-- The median computation of `analyze` (lines 477-482), over the sorted
sequence: the middle element for odd length, the mean of the two middle
elements for even length. -/
def medianOf (l : List ℚ) : ℚ :=
  if l.length % 2 = 1 then l.getD ((l.length - 1) / 2) 0
  else (l.getD (l.length / 2 - 1) 0 + l.getD (l.length / 2) 0) / 2

/-- The population variance of `analyze` (line 485):
`nums.reduce((acc, v) => acc + Math.pow(v - avg, 2), 0) / count`.  The
source takes `stddev = Math.sqrt(variance)` from it (line 486). -/
def varianceOf (l : List ℚ) (avg : ℚ) : ℚ :=
  (l.foldl (fun acc v => acc + (v - avg) ^ 2) 0) / (l.length : ℚ)

/-- The `percentile` closure returned by `analyze` (lines 489-497), as a
function of the sorted sequence it closes over.  `none` models the NaN
returned for a rank outside [0, 100]; in-range ranks produce the exact
element at the fractional index when the index is integral, and otherwise
the linear interpolation of the floor and ceiling neighbors. -/
def percentile (nums : List ℚ) (p : ℚ) : Option ℚ :=
  if p < 0 ∨ 100 < p then none
  else
    let idx : ℚ := (p / 100) * ((nums.length : ℚ) - 1)
    let lower : ℤ := ⌊idx⌋
    let upper : ℤ := ⌈idx⌉
    if lower = upper then some (nums.getD lower.toNat 0)
    else
      let weight : ℚ := idx - (lower : ℚ)
      some (nums.getD lower.toNat 0 * (1 - weight) + nums.getD upper.toNat 0 * weight)

/-- The success record returned by `analyze` (lines 502-515).  `nums` is
the sorted coerced sequence; `sum`, `avg`, `range` and `median` are stored
rounded to 2 decimals exactly as returned; `min` and `max` are exact;
`variance` is the exact radicand of the returned
`stddev = round(Math.sqrt(variance), 2)`; the returned `percentile`
closure is `percentile nums` since it closes over precisely `nums` and its
length. -/
structure Stats where
  nums : List ℚ
  count : ℕ
  sum : ℚ
  avg : ℚ
  min : ℚ
  max : ℚ
  range : ℚ
  median : ℚ
  variance : ℚ
  aboveAvg : List ℚ
  belowAvg : List ℚ
  deriving DecidableEq

instance : Inhabited Stats :=
  ⟨⟨[], 0, 0, 0, 0, 0, 0, 0, 0, [], []⟩⟩

/-- The `analyze` function (lines 454-516) in the exact-arithmetic layer:
coerce and filter the raw elements, fail when nothing numeric remains, and
otherwise sort ascending and compute the statistics record. -/
def analyze (parse : List Char → Option ℚ) (arr : List RawQ) : Except String Stats :=
  let nums0 := arr.filterMap (coerceQ parse)
  if nums0.length = 0 then
    .error "No valid numeric values found."
  else
    let nums := List.insertionSort (· ≤ ·) nums0
    let count := nums.length
    let sum := sumOf nums
    let avg := sum / (count : ℚ)
    let minV := nums.getD 0 0
    let maxV := nums.getD (count - 1) 0
    let rangeV := maxV - minV
    let medianV := medianOf nums
    let varianceV := varianceOf nums avg
    let aboveAvg := nums.filter (fun v => decide (avg < v))
    let belowAvg := nums.filter (fun v => decide (v < avg))
    .ok {
      nums := nums
      count := count
      sum := round sum 2
      avg := round avg 2
      min := minV
      max := maxV
      range := round rangeV 2
      median := round medianV 2
      variance := varianceV
      aboveAvg := aboveAvg
      belowAvg := belowAvg }

/-- Inversion of a successful run of `analyze`: every field of the record
is the stated function of the sorted coerced sequence, which is nonempty
and sorted. -/
theorem analyze_ok_spec (parse : List Char → Option ℚ) (arr : List RawQ)
    (s : Stats) (h : analyze parse arr = .ok s) :
    s.nums = List.insertionSort (· ≤ ·) (arr.filterMap (coerceQ parse)) ∧
    s.nums ≠ [] ∧
    s.nums.Sorted (· ≤ ·) ∧
    s.count = s.nums.length ∧
    s.sum = round (sumOf s.nums) 2 ∧
    s.avg = round (sumOf s.nums / (s.nums.length : ℚ)) 2 ∧
    s.min = s.nums.getD 0 0 ∧
    s.max = s.nums.getD (s.nums.length - 1) 0 ∧
    s.range = round (s.max - s.min) 2 ∧
    s.median = round (medianOf s.nums) 2 ∧
    s.variance = varianceOf s.nums (sumOf s.nums / (s.nums.length : ℚ)) ∧
    s.aboveAvg = s.nums.filter (fun v => decide (sumOf s.nums / (s.nums.length : ℚ) < v)) ∧
    s.belowAvg = s.nums.filter (fun v => decide (v < sumOf s.nums / (s.nums.length : ℚ))) := by
  simp only [analyze] at h
  split at h
  · exact absurd h (by simp)
  · next hne =>
    rw [Except.ok.injEq] at h
    subst h
    have hperm := List.perm_insertionSort (· ≤ ·) (arr.filterMap (coerceQ parse))
    have hpos : 0 <
        (List.insertionSort (· ≤ ·) (arr.filterMap (coerceQ parse))).length := by
      rw [hperm.length_eq]
      omega
    exact ⟨rfl, List.ne_nil_of_length_pos hpos, List.sorted_insertionSort _ _,
      rfl, rfl, rfl, rfl, rfl, rfl, rfl, rfl, rfl, rfl⟩

/-- A left fold that adds `f v` for each element equals the starting value
plus the sum of the mapped list. -/
theorem foldl_add_eq_sum (f : ℚ → ℚ) :
    ∀ (l : List ℚ) (c : ℚ), l.foldl (fun acc v => acc + f v) c = c + (l.map f).sum
  | [], c => by simp
  | v :: l, c => by
    rw [List.foldl_cons, foldl_add_eq_sum f l (c + f v), List.map_cons, List.sum_cons]
    ring

/-- The reduce-based sum of the source agrees with `List.sum`. -/
theorem sumOf_eq_sum (l : List ℚ) : sumOf l = l.sum := by
  have h := foldl_add_eq_sum (fun v => v) l 0
  simpa [sumOf] using h

/-- An in-range `getD` lookup is a member of the list. -/
theorem getD_mem {l : List ℚ} {i : ℕ} (h : i < l.length) : l.getD i 0 ∈ l := by
  rw [List.getD_eq_getElem _ _ h]
  exact List.getElem_mem h

/-- In a sorted list, `getD` is monotone in the index. -/
theorem sorted_getD_mono {l : List ℚ} (hs : l.Sorted (· ≤ ·)) {i j : ℕ}
    (hij : i ≤ j) (hj : j < l.length) : l.getD i 0 ≤ l.getD j 0 := by
  rcases Nat.eq_or_lt_of_le hij with rfl | hlt
  · exact le_refl _
  · have hi : i < l.length := lt_trans hlt hj
    rw [List.getD_eq_getElem _ _ hi, List.getD_eq_getElem _ _ hj]
    exact List.pairwise_iff_getElem.mp hs i j hi hj hlt

/-- In a sorted list, the first element bounds every member from below. -/
theorem sorted_first_le {l : List ℚ} (hs : l.Sorted (· ≤ ·)) {x : ℚ}
    (hx : x ∈ l) : l.getD 0 0 ≤ x := by
  obtain ⟨i, hi, rfl⟩ := List.getElem_of_mem hx
  calc l.getD 0 0 ≤ l.getD i 0 := sorted_getD_mono hs (Nat.zero_le i) hi
  _ = l[i] := List.getD_eq_getElem _ _ hi

/-- In a sorted list, the last element bounds every member from above. -/
theorem sorted_le_last {l : List ℚ} (hs : l.Sorted (· ≤ ·)) {x : ℚ}
    (hx : x ∈ l) : x ≤ l.getD (l.length - 1) 0 := by
  obtain ⟨i, hi, rfl⟩ := List.getElem_of_mem hx
  have hlast : l.length - 1 < l.length := by omega
  calc l[i] = l.getD i 0 := (List.getD_eq_getElem _ _ hi).symm
  _ ≤ l.getD (l.length - 1) 0 := sorted_getD_mono hs (by omega) hlast

/-- The unrounded average of a sorted nonempty list lies between its first
and last elements. -/
theorem sorted_avg_bounds {l : List ℚ} (hs : l.Sorted (· ≤ ·)) (hne : l ≠ []) :
    l.getD 0 0 ≤ sumOf l / (l.length : ℚ) ∧
    sumOf l / (l.length : ℚ) ≤ l.getD (l.length - 1) 0 := by
  have hpos : 0 < l.length := List.length_pos.mpr hne
  have hposQ : (0 : ℚ) < (l.length : ℚ) := by exact_mod_cast hpos
  have h1 : l.length • l.getD 0 0 ≤ l.sum :=
    List.card_nsmul_le_sum l _ (fun x hx => sorted_first_le hs hx)
  have h2 : l.sum ≤ l.length • l.getD (l.length - 1) 0 :=
    List.sum_le_card_nsmul l _ (fun x hx => sorted_le_last hs hx)
  rw [nsmul_eq_mul] at h1 h2
  rw [sumOf_eq_sum]
  constructor
  · rw [le_div_iff₀ hposQ]
    linarith
  · rw [div_le_iff₀ hposQ]
    linarith

/-- The unrounded median of a sorted nonempty list lies between its first
and last elements. -/
theorem sorted_median_bounds {l : List ℚ} (hs : l.Sorted (· ≤ ·))
    (hne : l ≠ []) :
    l.getD 0 0 ≤ medianOf l ∧ medianOf l ≤ l.getD (l.length - 1) 0 := by
  have hpos : 0 < l.length := List.length_pos.mpr hne
  unfold medianOf
  by_cases hodd : l.length % 2 = 1
  · rw [if_pos hodd]
    exact ⟨sorted_getD_mono hs (Nat.zero_le _) (by omega),
      sorted_getD_mono hs (by omega) (by omega)⟩
  · rw [if_neg hodd]
    have h2 : 2 ≤ l.length := by omega
    have e1 : l.getD 0 0 ≤ l.getD (l.length / 2 - 1) 0 :=
      sorted_getD_mono hs (by omega) (by omega)
    have e2 : l.getD 0 0 ≤ l.getD (l.length / 2) 0 :=
      sorted_getD_mono hs (by omega) (by omega)
    have e3 : l.getD (l.length / 2 - 1) 0 ≤ l.getD (l.length - 1) 0 :=
      sorted_getD_mono hs (by omega) (by omega)
    have e4 : l.getD (l.length / 2) 0 ≤ l.getD (l.length - 1) 0 :=
      sorted_getD_mono hs (by omega) (by omega)
    constructor <;> linarith

/-- Every element of a list is strictly above `a`, strictly below `a`, or
equal to `a`, so the three filters partition the length. -/
theorem length_filter_partition (l : List ℚ) (a : ℚ) :
    l.length = (l.filter (fun v => decide (a < v))).length +
      (l.filter (fun v => decide (v < a))).length +
      (l.filter (fun v => decide (v = a))).length := by
  induction l with
  | nil => simp
  | cons x t ih =>
    rcases lt_trichotomy a x with h | h | h
    · simp only [List.filter_cons, decide_eq_true_eq, h, if_true,
        not_lt.mpr h.le, decide_eq_false_iff_not, if_neg, List.length_cons,
        h.ne', not_false_eq_true]
      omega
    · subst h
      simp only [List.filter_cons, decide_eq_true_eq, lt_irrefl, if_false,
        decide_eq_false_iff_not, not_false_eq_true, if_neg, if_pos rfl,
        List.length_cons, not_lt.mpr le_rfl, eq_self_iff_true, if_true]
      omega
    · simp only [List.filter_cons, decide_eq_true_eq, not_lt.mpr h.le, h,
        if_true, decide_eq_false_iff_not, if_neg, List.length_cons,
        h.ne, not_false_eq_true]
      omega

/-- The result of `analyze` on the single input element `-0.125`: the
rounded fields hold `-0.12`, because `Math.round(-12.5)` is `-12`. -/
def statsNeg : Stats where
  nums := [-(1/8)]
  count := 1
  sum := -(3/25)
  avg := -(3/25)
  min := -(1/8)
  max := -(1/8)
  range := 0
  median := -(3/25)
  variance := 0
  aboveAvg := []
  belowAvg := []

/-- C2, counterexample: the 2-decimal rounding applied by `analyze` is NOT
round-half-away-from-zero.  At `-0.125` the source's `round` (and hence the
`avg` field of `analyze` on input `[-0.125]`) yields `-0.12 = -(3/25)`,
while round-half-away-from-zero yields `-0.13`. -/
theorem c2_cex :
    round (-(1/8) : ℚ) 2 = -(3/25) ∧
    roundHalfAwayFromZero (-(1/8) : ℚ) 2 = -(13/100) ∧
    ((-(3/25) : ℚ) ≠ -(13/100)) ∧
    analyze parseNoneQ [RawQ.num (-(1/8))] = .ok statsNeg ∧
    statsNeg.avg = -(3/25) := by
  refine ⟨?_, ?_, ?_, ?_, ?_⟩ <;>
    norm_num [analyze, coerceQ, parseNoneQ, sumOf, medianOf, varianceOf,
      round, mathRound, roundHalfAwayFromZero, statsNeg,
      List.insertionSort, List.orderedInsert] <;>
    simp

/-- C2, amended: the 2-decimal rounding applied by `analyze` to sum,
average, range, median and population standard deviation is
round-half-UP at 2 decimal digits: multiply by 100, take the floor after
adding one half (so exact halves round toward positive infinity), divide
by 100.  It agrees with round-half-away-from-zero on every nonnegative
input, but a negative value whose scaled fraction is exactly one half
rounds toward zero: `-0.125` rounds to `-0.12`. -/
theorem c2_thm :
    (∀ x : ℚ, round x 2 = ((⌊x * 100 + 1 / 2⌋ : ℤ) : ℚ) / 100) ∧
    (∀ x : ℚ, 0 ≤ x → round x 2 = roundHalfAwayFromZero x 2) ∧
    round (-(1/8) : ℚ) 2 = -(3/25) := by
  refine ⟨fun x => ?_, fun x hx => ?_, ?_⟩
  · norm_num [round, mathRound]
  · norm_num [round, mathRound, roundHalfAwayFromZero, if_pos hx]
  · norm_num [round, mathRound]

/-- C2, witness: the amended statement instantiated at `x = 1/8`: the
half-up formula computes `round`, and on this nonnegative input it agrees
with round-half-away-from-zero. -/
theorem c2_witness :
    round ((1:ℚ)/8) 2 = ((⌊((1:ℚ)/8) * 100 + 1 / 2⌋ : ℤ) : ℚ) / 100 ∧
    round ((1:ℚ)/8) 2 = roundHalfAwayFromZero ((1:ℚ)/8) 2 :=
  ⟨c2_thm.1 (1/8), c2_thm.2.1 (1/8) (by norm_num)⟩

/-- The result of `analyze` on the input `[0.003, 0.005]`: `avg`, `range`
and `median` all round down to `0`, below the exact `min = 0.003`. -/
def stats35 : Stats where
  nums := [3/1000, 5/1000]
  count := 2
  sum := 1/100
  avg := 0
  min := 3/1000
  max := 5/1000
  range := 0
  median := 0
  variance := 1/1000000
  aboveAvg := [5/1000]
  belowAvg := [3/1000]

/-- C3, counterexample, in two parts.  Rounding: on the input
`[0.003, 0.005]` the returned record violates both `min ≤ median` and
`range = max - min`, because the `median` and `range` fields are rounded
to 2 decimals: the rounded median `0` is below `min = 0.003`, and the
rounded range `0` differs from `max - min = 0.002`.  Infinities: on the
input `[Infinity, -Infinity]`, which the `!isNaN` filter keeps in full,
`analyze` still succeeds, but the average and the median are NaN, so
`min ≤ median` fails (no comparison with NaN holds) and the count
partition fails (`count = 2`, yet no value is above, below, or
strictly-equal to the NaN average). -/
theorem c3_cex :
    (analyze parseNoneQ [RawQ.num (3/1000), RawQ.num (5/1000)] = .ok stats35 ∧
      ¬ (stats35.min ≤ stats35.median) ∧
      stats35.range ≠ stats35.max - stats35.min) ∧
    (analyzeJ parseNaN [RawValue.num JsNum.posInf, RawValue.num JsNum.negInf]
        = .ok statsJInf ∧
      jsLe statsJInf.min statsJInf.median = false ∧
      statsJInf.count ≠ statsJInf.aboveAvg.length + statsJInf.belowAvg.length +
        (statsJInf.nums.filter (fun v =>
          jsEq v (jsDiv (sumJ statsJInf.nums)
            (JsNum.fin (statsJInf.count : ℚ))))).length) := by
  constructor
  · refine ⟨?_, ?_, ?_⟩ <;>
      norm_num [analyze, coerceQ, parseNoneQ, sumOf, medianOf, varianceOf,
        round, mathRound, stats35, List.insertionSort, List.orderedInsert] <;>
      simp
  · refine ⟨?_, ?_, ?_⟩ <;>
      norm_num [analyzeJ, coerce, parseNaN, jsIsNaN, sumJ, medianJ,
        varianceJ, roundJ, mathRoundJ, jsAdd, jsSub, jsNeg, jsMul, jsDiv,
        jsLt, jsLe, jsEq, statsJInf, List.insertionSort,
        List.orderedInsert] <;>
      simp

/-- C3, amended: for every successful result of `analyze` on an input
whose coerced values are all finite, the invariants hold on the unrounded
quantities: `min ≤ median ≤ max` and the range equation hold for the exact
(pre-rounding) median and range — the returned `median` and `range` fields
are those exact values rounded to 2 decimals — `min ≤ average ≤ max` holds
with the unrounded average, and `count` is the number of values strictly
above the unrounded average plus the number strictly below it plus the
number exactly equal to it.  (The all-finite hypothesis is the domain of
`RawQ`; it is necessary: on the successful infinite run of the
counterexample the average and median are NaN and the invariants fail.) -/
theorem c3_thm (parse : List Char → Option ℚ) (arr : List RawQ) (s : Stats)
    (h : analyze parse arr = .ok s) :
    s.min ≤ medianOf s.nums ∧ medianOf s.nums ≤ s.max ∧
    s.min ≤ sumOf s.nums / (s.nums.length : ℚ) ∧
    sumOf s.nums / (s.nums.length : ℚ) ≤ s.max ∧
    s.count = s.aboveAvg.length + s.belowAvg.length +
      (s.nums.filter
        (fun v => decide (v = sumOf s.nums / (s.nums.length : ℚ)))).length ∧
    s.range = round (s.max - s.min) 2 ∧
    s.median = round (medianOf s.nums) 2 := by
  obtain ⟨hnums, hne, hs, hcount, hsum, havg, hmin, hmax, hrange, hmedian,
    hvar, habove, hbelow⟩ := analyze_ok_spec parse arr s h
  have hmed := sorted_median_bounds hs hne
  have havgb := sorted_avg_bounds hs hne
  have h1 : s.min ≤ medianOf s.nums := by rw [hmin]; exact hmed.1
  have h2 : medianOf s.nums ≤ s.max := by rw [hmax]; exact hmed.2
  have h3 : s.min ≤ sumOf s.nums / (s.nums.length : ℚ) := by
    rw [hmin]; exact havgb.1
  have h4 : sumOf s.nums / (s.nums.length : ℚ) ≤ s.max := by
    rw [hmax]; exact havgb.2
  have h5 : s.count = s.aboveAvg.length + s.belowAvg.length +
      (s.nums.filter
        (fun v => decide (v = sumOf s.nums / (s.nums.length : ℚ)))).length := by
    rw [hcount, habove, hbelow]
    exact length_filter_partition s.nums _
  exact ⟨h1, h2, h3, h4, h5, hrange, hmedian⟩

/-- The result of `analyze` on the input `[1, 3]`. -/
def stats13 : Stats where
  nums := [1, 3]
  count := 2
  sum := 4
  avg := 2
  min := 1
  max := 3
  range := 2
  median := 2
  variance := 1
  aboveAvg := [3]
  belowAvg := [1]

/-- C3, witness: the amended invariants hold concretely on the result of
`analyze` at the input `[1, 3]`. -/
theorem c3_witness :
    stats13.min ≤ medianOf stats13.nums ∧
    medianOf stats13.nums ≤ stats13.max ∧
    stats13.min ≤ sumOf stats13.nums / (stats13.nums.length : ℚ) ∧
    sumOf stats13.nums / (stats13.nums.length : ℚ) ≤ stats13.max ∧
    stats13.count = stats13.aboveAvg.length + stats13.belowAvg.length +
      (stats13.nums.filter
        (fun v => decide (v = sumOf stats13.nums / (stats13.nums.length : ℚ)))).length ∧
    stats13.range = round (stats13.max - stats13.min) 2 ∧
    stats13.median = round (medianOf stats13.nums) 2 :=
  c3_thm parseNoneQ [RawQ.num 1, RawQ.num 3] stats13 (by
    norm_num [analyze, coerceQ, parseNoneQ, sumOf, medianOf, varianceOf,
      round, mathRound, stats13, List.insertionSort, List.orderedInsert] <;>
    simp)

/-- C4: `analyze` returns the error record with message exactly
"No valid numeric values found." precisely when the coerced numeric
sequence is empty, and this is the only error it ever returns.  In the
embedding `analyze` is a total function into a sum of error and success
records, so the error is a returned value, never a thrown fault, and the
error case carries no statistics. -/
theorem c4_thm (parse : List Char → Option ℚ) (arr : List RawQ) :
    (analyze parse arr = .error "No valid numeric values found." ↔
      arr.filterMap (coerceQ parse) = []) ∧
    (∀ msg, analyze parse arr = .error msg →
      msg = "No valid numeric values found.") := by
  by_cases h0 : (arr.filterMap (coerceQ parse)).length = 0
  · have he : analyze parse arr = .error "No valid numeric values found." := by
      simp only [analyze]
      rw [if_pos h0]
    exact ⟨⟨fun _ => List.length_eq_zero.mp h0, fun _ => he⟩,
      fun msg hm => by rw [he] at hm; exact (Except.error.inj hm).symm⟩
  · constructor
    · constructor
      · intro habs
        exfalso
        simp only [analyze] at habs
        rw [if_neg h0] at habs
        exact Except.noConfusion habs
      · intro hnil
        exact absurd (by rw [hnil]; rfl :
          (arr.filterMap (coerceQ parse)).length = 0) h0
    · intro msg hm
      exfalso
      simp only [analyze] at hm
      rw [if_neg h0] at hm
      exact Except.noConfusion hm

/-- C4, witness: on the one-element input `[null]` nothing coerces, and
`analyze` returns exactly the empty-dataset error value. -/
theorem c4_witness :
    analyze parseNoneQ [RawQ.nullV] = .error "No valid numeric values found." :=
  (c4_thm parseNoneQ [RawQ.nullV]).1.mpr rfl

/-- C5: on every successful result, `percentile 0` is exactly `min`,
`percentile 100` is exactly `max`, and for odd `count`, `percentile 50` is
exactly the unrounded median. -/
theorem c5_thm (parse : List Char → Option ℚ) (arr : List RawQ) (s : Stats)
    (h : analyze parse arr = .ok s) :
    percentile s.nums 0 = some s.min ∧
    percentile s.nums 100 = some s.max ∧
    (s.count % 2 = 1 → percentile s.nums 50 = some (medianOf s.nums)) := by
  obtain ⟨hnums, hne, hs, hcount, hsum, havg, hmin, hmax, hrange, hmedian,
    hvar, habove, hbelow⟩ := analyze_ok_spec parse arr s h
  have hpos : 0 < s.nums.length := List.length_pos.mpr hne
  refine ⟨?_, ?_, ?_⟩
  · rw [hmin]
    simp only [percentile]
    rw [if_neg (by norm_num)]
    norm_num
  · rw [hmax]
    simp only [percentile]
    rw [if_neg (by norm_num)]
    have hcast : ((100 : ℚ) / 100) * ((s.nums.length : ℚ) - 1)
        = (((s.nums.length : ℤ) - 1 : ℤ) : ℚ) := by
      push_cast
      ring
    rw [hcast, Int.floor_intCast, Int.ceil_intCast, if_pos rfl]
    have htn : ((s.nums.length : ℤ) - 1).toNat = s.nums.length - 1 := by omega
    rw [htn]
  · intro hodd
    rw [hcount] at hodd
    obtain ⟨k, hk⟩ : ∃ k, s.nums.length = 2 * k + 1 := ⟨s.nums.length / 2, by omega⟩
    simp only [percentile]
    rw [if_neg (by norm_num)]
    have hcast : ((50 : ℚ) / 100) * ((s.nums.length : ℚ) - 1) = (k : ℚ) := by
      have hq : (s.nums.length : ℚ) = 2 * (k : ℚ) + 1 := by
        exact_mod_cast congrArg (Nat.cast (R := ℚ)) hk
      rw [hq]
      ring
    rw [hcast, Int.floor_natCast, Int.ceil_natCast, if_pos rfl]
    have hmed : medianOf s.nums = s.nums.getD k 0 := by
      unfold medianOf
      rw [if_pos hodd]
      congr 1
      omega
    rw [hmed, Int.toNat_natCast]

/-- The result of `analyze` on the input `[1, 2, 3]`. -/
def stats123 : Stats where
  nums := [1, 2, 3]
  count := 3
  sum := 6
  avg := 2
  min := 1
  max := 3
  range := 2
  median := 2
  variance := 2/3
  aboveAvg := [3]
  belowAvg := [1]

/-- C5, witness: on the result of `analyze` at the input `[1, 2, 3]` (odd
count 3), percentile 0 is the min, percentile 100 is the max, and
percentile 50 is the exact median. -/
theorem c5_witness :
    percentile stats123.nums 0 = some stats123.min ∧
    percentile stats123.nums 100 = some stats123.max ∧
    percentile stats123.nums 50 = some (medianOf stats123.nums) := by
  have h : analyze parseNoneQ [RawQ.num 1, RawQ.num 2, RawQ.num 3]
      = .ok stats123 := by
    norm_num [analyze, coerceQ, parseNoneQ, sumOf, medianOf, varianceOf,
      round, mathRound, stats123, List.insertionSort, List.orderedInsert] <;>
    simp
  exact ⟨(c5_thm parseNoneQ _ stats123 h).1, (c5_thm parseNoneQ _ stats123 h).2.1,
    (c5_thm parseNoneQ _ stats123 h).2.2 (by norm_num [stats123])⟩

/-- Whether a raw element is a (finite) number. -/
def RawQ.isNum : RawQ → Bool
  | .num _ => true
  | _ => false

/-- Observer for the success/error choice of an `analyze` result. -/
def isOkResult : Except String Stats → Bool
  | .ok _ => true
  | .error _ => false

/-- Observer for the `count` field of an `analyze` result (0 on error). -/
def resultCount : Except String Stats → ℕ
  | .ok s => s.count
  | .error _ => 0

/-- When every element of the input is a number, the coercion keeps them
all, so the coerced sequence has the input's length. -/
theorem filterMap_coerceQ_all_num (parse : List Char → Option ℚ) :
    ∀ (arr : List RawQ), (∀ v ∈ arr, v.isNum = true) →
      (arr.filterMap (coerceQ parse)).length = arr.length
  | [], _ => rfl
  | x :: t, h => by
    have hx := h x (List.mem_cons_self x t)
    have ht := filterMap_coerceQ_all_num parse t
      (fun v hv => h v (List.mem_cons_of_mem _ hv))
    cases x with
    | num q =>
      simp only [List.filterMap_cons, coerceQ, List.length_cons]
      rw [ht]
    | str s => simp [RawQ.isNum] at hx
    | nullV => simp [RawQ.isNum] at hx
    | boolV b => simp [RawQ.isNum] at hx

/-- C6: on every nonempty input whose elements are all finite numbers,
`analyze` succeeds and the `count` field equals the input length. -/
theorem c6_thm (parse : List Char → Option ℚ) (arr : List RawQ)
    (h1 : arr ≠ []) (h2 : ∀ v ∈ arr, v.isNum = true) :
    isOkResult (analyze parse arr) = true ∧
    resultCount (analyze parse arr) = arr.length := by
  have hlen := filterMap_coerceQ_all_num parse arr h2
  have h0 : ¬ (arr.filterMap (coerceQ parse)).length = 0 := by
    rw [hlen]
    exact fun hc => h1 (List.length_eq_zero.mp hc)
  simp only [analyze]
  rw [if_neg h0]
  refine ⟨rfl, ?_⟩
  simp only [resultCount]
  rw [(List.perm_insertionSort _ _).length_eq, hlen]

/-- C6, witness: on the input `[5]` (one finite number), `analyze`
succeeds with count 1. -/
theorem c6_witness :
    isOkResult (analyze parseNoneQ [RawQ.num 5]) = true ∧
    resultCount (analyze parseNoneQ [RawQ.num 5]) = 1 :=
  c6_thm parseNoneQ [RawQ.num 5] (List.cons_ne_nil _ _) (by decide)

/-- C7: `analyze` is invariant under permutation of its input: permuted
inputs produce equal results — the same success/error choice and, on
success, the same record field for field (the returned `percentile`
closure is determined by the `nums` field it closes over, so it too
agrees). -/
theorem c7_thm (parse : List Char → Option ℚ) (l1 l2 : List RawQ)
    (hp : l1.Perm l2) : analyze parse l1 = analyze parse l2 := by
  have hfm : (l1.filterMap (coerceQ parse)).Perm (l2.filterMap (coerceQ parse)) :=
    hp.filterMap _
  have hlen := hfm.length_eq
  by_cases h0 : (l1.filterMap (coerceQ parse)).length = 0
  · have h0b : (l2.filterMap (coerceQ parse)).length = 0 := by omega
    simp only [analyze]
    rw [if_pos h0, if_pos h0b]
  · have h0b : ¬ (l2.filterMap (coerceQ parse)).length = 0 := by omega
    have hsort : List.insertionSort (· ≤ ·) (l1.filterMap (coerceQ parse))
        = List.insertionSort (· ≤ ·) (l2.filterMap (coerceQ parse)) :=
      List.eq_of_perm_of_sorted
        ((List.perm_insertionSort _ _).trans
          (hfm.trans (List.perm_insertionSort _ _).symm))
        (List.sorted_insertionSort _ _) (List.sorted_insertionSort _ _)
    simp only [analyze]
    rw [if_neg h0, if_neg h0b, hsort]

/-- C7, witness: swapping the two elements of `[1, 2]` leaves the result
of `analyze` unchanged. -/
theorem c7_witness :
    analyze parseNoneQ [RawQ.num 1, RawQ.num 2]
      = analyze parseNoneQ [RawQ.num 2, RawQ.num 1] :=
  c7_thm parseNoneQ _ _ (by decide)

/-- The interpolation kernel of `percentile` at a fractional index: the
element at the index when it is integral, else the linear interpolation of
the floor and ceiling neighbors. -/
def interpAt (l : List ℚ) (idx : ℚ) : ℚ :=
  if (⌊idx⌋ : ℤ) = ⌈idx⌉ then l.getD (⌊idx⌋).toNat 0
  else l.getD (⌊idx⌋).toNat 0 * (1 - (idx - (⌊idx⌋ : ℚ)))
    + l.getD (⌈idx⌉).toNat 0 * (idx - (⌊idx⌋ : ℚ))

/-- On an in-range rank, `percentile` returns the interpolation kernel at
the fractional index. -/
theorem percentile_eq_interpAt (l : List ℚ) (p : ℚ) (h1 : ¬ p < 0)
    (h2 : ¬ 100 < p) :
    percentile l p = some (interpAt l ((p / 100) * ((l.length : ℚ) - 1))) := by
  simp only [percentile, interpAt]
  rw [if_neg (by tauto)]
  by_cases hc : (⌊(p / 100) * ((l.length : ℚ) - 1)⌋ : ℤ)
      = ⌈(p / 100) * ((l.length : ℚ) - 1)⌉
  · rw [if_pos hc, if_pos hc]
  · rw [if_neg hc, if_neg hc]

/-- On a sorted list, the interpolation kernel at an in-range index lies
between its floor neighbor and its ceiling neighbor. -/
theorem interpAt_bounds {l : List ℚ} (hs : l.Sorted (· ≤ ·)) {idx : ℚ}
    (h0 : 0 ≤ idx) (h1 : idx ≤ (l.length : ℚ) - 1) :
    l.getD (⌊idx⌋).toNat 0 ≤ interpAt l idx ∧
    interpAt l idx ≤ l.getD (⌈idx⌉).toNat 0 := by
  have hfl0 : 0 ≤ ⌊idx⌋ := Int.floor_nonneg.mpr h0
  have hlen1 : 1 ≤ l.length := by
    rcases Nat.eq_zero_or_pos l.length with hz | hp
    · exfalso
      rw [hz] at h1
      push_cast at h1
      linarith
    · exact hp
  have hceil_le : ⌈idx⌉ ≤ (l.length : ℤ) - 1 := by
    rw [Int.ceil_le]
    push_cast
    linarith
  have hflceil : ⌊idx⌋ ≤ ⌈idx⌉ := Int.floor_le_ceil idx
  have hupN : (⌈idx⌉).toNat < l.length := by omega
  have hab : l.getD (⌊idx⌋).toNat 0 ≤ l.getD (⌈idx⌉).toNat 0 :=
    sorted_getD_mono hs (by omega) hupN
  unfold interpAt
  by_cases hc : (⌊idx⌋ : ℤ) = ⌈idx⌉
  · rw [if_pos hc]
    exact ⟨le_refl _, hab⟩
  · rw [if_neg hc]
    have hw0 : 0 ≤ idx - (⌊idx⌋ : ℚ) := by
      have := Int.floor_le idx
      linarith
    have hw1 : idx - (⌊idx⌋ : ℚ) ≤ 1 := by
      have := Int.lt_floor_add_one idx
      linarith
    constructor
    · nlinarith [mul_nonneg hw0 (sub_nonneg.mpr hab)]
    · nlinarith [mul_nonneg (sub_nonneg.mpr hw1) (sub_nonneg.mpr hab)]

/-- On a sorted list, the interpolation kernel is monotone in the index
over the in-range interval. -/
theorem interpAt_mono {l : List ℚ} (hs : l.Sorted (· ≤ ·)) {i1 i2 : ℚ}
    (h0 : 0 ≤ i1) (h12 : i1 ≤ i2) (h1 : i2 ≤ (l.length : ℚ) - 1) :
    interpAt l i1 ≤ interpAt l i2 := by
  have h02 : 0 ≤ i2 := le_trans h0 h12
  have h1i1 : i1 ≤ (l.length : ℚ) - 1 := le_trans h12 h1
  have hb1 := interpAt_bounds hs h0 h1i1
  have hb2 := interpAt_bounds hs h02 h1
  have hceil2_le : ⌈i2⌉ ≤ (l.length : ℤ) - 1 := by
    rw [Int.ceil_le]
    push_cast
    linarith
  have hfl1_0 : 0 ≤ ⌊i1⌋ := Int.floor_nonneg.mpr h0
  have hfl2_0 : 0 ≤ ⌊i2⌋ := Int.floor_nonneg.mpr h02
  have hflceil1 : ⌊i1⌋ ≤ ⌈i1⌉ := Int.floor_le_ceil i1
  have hflceil2 : ⌊i2⌋ ≤ ⌈i2⌉ := Int.floor_le_ceil i2
  by_cases hcase : ⌈i1⌉ ≤ ⌊i2⌋
  · have hmid : l.getD (⌈i1⌉).toNat 0 ≤ l.getD (⌊i2⌋).toNat 0 :=
      sorted_getD_mono hs (by omega) (by omega)
    exact le_trans hb1.2 (le_trans hmid hb2.1)
  · push_neg at hcase
    have hf12 : ⌊i1⌋ ≤ ⌊i2⌋ := Int.floor_mono h12
    have hc1 : ⌈i1⌉ ≤ ⌊i1⌋ + 1 := Int.ceil_le_floor_add_one i1
    have hfeq : ⌊i2⌋ = ⌊i1⌋ := by omega
    have hne1 : (⌊i1⌋ : ℤ) ≠ ⌈i1⌉ := by omega
    have hceq1 : ⌈i1⌉ = ⌊i1⌋ + 1 := by omega
    have hfl1_lt : (⌊i1⌋ : ℚ) < i1 := by
      rcases lt_or_eq_of_le (Int.floor_le i1) with hlt | heq
      · exact hlt
      · exfalso
        exact hne1 (by rw [← heq, Int.floor_intCast, Int.ceil_intCast])
    have hne2 : (⌊i2⌋ : ℤ) ≠ ⌈i2⌉ := by
      intro hc
      have hint : i2 = (⌊i2⌋ : ℚ) := by
        have ha := Int.floor_le i2
        have hb := Int.le_ceil i2
        rw [← hc] at hb
        linarith
      rw [hfeq] at hint
      linarith
    have hc2 : ⌈i2⌉ ≤ ⌊i2⌋ + 1 := Int.ceil_le_floor_add_one i2
    have hceq2 : ⌈i2⌉ = ⌊i1⌋ + 1 := by omega
    have hupN : (⌊i1⌋ + 1 : ℤ).toNat < l.length := by
      rw [← hceq2]
      omega
    have hab : l.getD (⌊i1⌋).toNat 0 ≤ l.getD ((⌊i1⌋ + 1 : ℤ)).toNat 0 :=
      sorted_getD_mono hs (by omega) hupN
    unfold interpAt
    rw [if_neg hne1, if_neg hne2, hfeq, hceq1, hceq2]
    nlinarith [mul_nonneg (sub_nonneg.mpr hab) (sub_nonneg.mpr h12)]

/-- C8, counterexample: on the input `[Infinity, -Infinity]`, which the
`!isNaN` filter keeps in full, `analyze` succeeds, but `percentile 25` and
`percentile 50` interpolate between the two infinities and are NaN, so the
claimed definedness of in-range percentiles fails, the monotonicity
`percentile 25 ≤ percentile 50` fails, and the bounds
`min ≤ percentile 25` and `percentile 25 ≤ max` fail — no comparison
with NaN holds. -/
theorem c8_cex :
    analyzeJ parseNaN [RawValue.num JsNum.posInf, RawValue.num JsNum.negInf]
      = .ok statsJInf ∧
    percentileJ statsJInf.nums 25 = JsNum.nan ∧
    percentileJ statsJInf.nums 50 = JsNum.nan ∧
    jsLe (percentileJ statsJInf.nums 25) (percentileJ statsJInf.nums 50)
      = false ∧
    jsLe statsJInf.min (percentileJ statsJInf.nums 25) = false ∧
    jsLe (percentileJ statsJInf.nums 25) statsJInf.max = false := by
  have hrun : analyzeJ parseNaN
      [RawValue.num JsNum.posInf, RawValue.num JsNum.negInf]
      = .ok statsJInf := by
    norm_num [analyzeJ, coerce, parseNaN, jsIsNaN, sumJ, medianJ,
      varianceJ, roundJ, mathRoundJ, jsAdd, jsSub, jsNeg, jsMul, jsDiv,
      jsLt, jsLe, statsJInf, List.insertionSort, List.orderedInsert] <;>
    simp
  have hfl4 : (⌊(1:ℚ)/4⌋ : ℤ) = 0 := by norm_num
  have hcl4 : (⌈(1:ℚ)/4⌉ : ℤ) = 1 := by
    rw [Int.ceil_eq_iff] <;> norm_num
  have hfl2 : (⌊(1:ℚ)/2⌋ : ℤ) = 0 := by norm_num
  have hcl2 : (⌈(1:ℚ)/2⌉ : ℤ) = 1 := by
    rw [Int.ceil_eq_iff] <;> norm_num
  have h25 : percentileJ statsJInf.nums 25 = JsNum.nan := by
    show percentileJ [JsNum.negInf, JsNum.posInf] 25 = JsNum.nan
    have hidx : ((25 : ℚ) / 100) *
        ((([JsNum.negInf, JsNum.posInf] : List JsNum).length : ℚ) - 1)
        = 1/4 := by
      norm_num
    simp only [percentileJ]
    rw [if_neg (by norm_num), hidx, hfl4, hcl4, if_neg (by norm_num)]
    norm_num [jsMul, jsAdd]
  have h50 : percentileJ statsJInf.nums 50 = JsNum.nan := by
    show percentileJ [JsNum.negInf, JsNum.posInf] 50 = JsNum.nan
    have hidx : ((50 : ℚ) / 100) *
        ((([JsNum.negInf, JsNum.posInf] : List JsNum).length : ℚ) - 1)
        = 1/2 := by
      norm_num
    simp only [percentileJ]
    rw [if_neg (by norm_num), hidx, hfl2, hcl2, if_neg (by norm_num)]
    norm_num [jsMul, jsAdd]
  refine ⟨hrun, h25, h50, ?_, ?_, ?_⟩
  · rw [h25, h50]
    rfl
  · rw [h25]
    rfl
  · rw [h25]
    rfl

/-- C8, amended: on every successful result of `analyze` on an input
whose coerced values are all finite, and percentile ranks
`0 ≤ p ≤ q ≤ 100`, both percentiles are defined, `percentile p` is at most
`percentile q`, and every in-range percentile value lies between `min` and
`max`.  (The all-finite hypothesis is the domain of `RawQ`; it is
necessary: on the successful infinite run of the counterexample the
in-range percentiles are NaN and none of these properties holds.) -/
theorem c8_thm (parse : List Char → Option ℚ) (arr : List RawQ) (s : Stats)
    (p q : ℚ) (h : analyze parse arr = .ok s)
    (hp0 : 0 ≤ p) (hpq : p ≤ q) (hq : q ≤ 100) :
    (percentile s.nums p).isSome = true ∧
    ∀ vp vq, percentile s.nums p = some vp → percentile s.nums q = some vq →
      vp ≤ vq ∧ s.min ≤ vp ∧ vq ≤ s.max := by
  obtain ⟨hnums, hne, hsorted, hcount, hsum, havg, hmin, hmax, hrange,
    hmedian, hvar, habove, hbelow⟩ := analyze_ok_spec parse arr s h
  have hq0 : 0 ≤ q := le_trans hp0 hpq
  have hp100 : p ≤ 100 := le_trans hpq hq
  have hP := percentile_eq_interpAt s.nums p (not_lt.mpr hp0) (not_lt.mpr hp100)
  have hQ := percentile_eq_interpAt s.nums q (not_lt.mpr hq0) (not_lt.mpr hq)
  have hn1 : (1 : ℚ) ≤ (s.nums.length : ℚ) := by
    exact_mod_cast List.length_pos.mpr hne
  have hip0 : 0 ≤ (p / 100) * ((s.nums.length : ℚ) - 1) :=
    mul_nonneg (by linarith) (by linarith)
  have hipq : (p / 100) * ((s.nums.length : ℚ) - 1)
      ≤ (q / 100) * ((s.nums.length : ℚ) - 1) :=
    mul_le_mul_of_nonneg_right (by linarith) (by linarith)
  have hiq1 : (q / 100) * ((s.nums.length : ℚ) - 1)
      ≤ (s.nums.length : ℚ) - 1 := by
    calc (q / 100) * ((s.nums.length : ℚ) - 1)
        ≤ 1 * ((s.nums.length : ℚ) - 1) :=
          mul_le_mul_of_nonneg_right (by linarith) (by linarith)
    _ = (s.nums.length : ℚ) - 1 := one_mul _
  constructor
  · rw [hP]
    rfl
  · intro vp vq hvp hvq
    rw [hP] at hvp
    rw [hQ] at hvq
    have hvp' := Option.some.inj hvp
    have hvq' := Option.some.inj hvq
    subst hvp'
    subst hvq'
    refine ⟨interpAt_mono hsorted hip0 hipq hiq1, ?_, ?_⟩
    · rw [hmin]
      have hb := interpAt_bounds hsorted hip0 (le_trans hipq hiq1)
      have hceil : ⌈(p / 100) * ((s.nums.length : ℚ) - 1)⌉
          ≤ (s.nums.length : ℤ) - 1 := by
        rw [Int.ceil_le]
        push_cast
        linarith [le_trans hipq hiq1]
      have hfl : 0 ≤ ⌊(p / 100) * ((s.nums.length : ℚ) - 1)⌋ :=
        Int.floor_nonneg.mpr hip0
      have hflceil : ⌊(p / 100) * ((s.nums.length : ℚ) - 1)⌋
          ≤ ⌈(p / 100) * ((s.nums.length : ℚ) - 1)⌉ := Int.floor_le_ceil _
      have hlow : s.nums.getD 0 0
          ≤ s.nums.getD (⌊(p / 100) * ((s.nums.length : ℚ) - 1)⌋).toNat 0 :=
        sorted_getD_mono hsorted (Nat.zero_le _) (by omega)
      linarith [hb.1]
    · rw [hmax]
      have hb := interpAt_bounds hsorted (le_trans hip0 hipq) hiq1
      have hceil : ⌈(q / 100) * ((s.nums.length : ℚ) - 1)⌉
          ≤ (s.nums.length : ℤ) - 1 := by
        rw [Int.ceil_le]
        push_cast
        linarith
      have hfl : 0 ≤ ⌊(q / 100) * ((s.nums.length : ℚ) - 1)⌋ :=
        Int.floor_nonneg.mpr (le_trans hip0 hipq)
      have hflceil : ⌊(q / 100) * ((s.nums.length : ℚ) - 1)⌋
          ≤ ⌈(q / 100) * ((s.nums.length : ℚ) - 1)⌉ := Int.floor_le_ceil _
      have hhigh : s.nums.getD (⌈(q / 100) * ((s.nums.length : ℚ) - 1)⌉).toNat 0
          ≤ s.nums.getD (s.nums.length - 1) 0 :=
        sorted_getD_mono hsorted (by omega) (by omega)
      linarith [hb.2]

/-- C8, witness: on the result of `analyze` at the input `[1, 2, 3]` with
ranks 25 and 75, the percentiles are defined, ordered, and between min and
max. -/
theorem c8_witness :
    (percentile stats123.nums 25).isSome = true ∧
    ∀ vp vq, percentile stats123.nums 25 = some vp →
      percentile stats123.nums 75 = some vq →
      vp ≤ vq ∧ stats123.min ≤ vp ∧ vq ≤ stats123.max := by
  have h : analyze parseNoneQ [RawQ.num 1, RawQ.num 2, RawQ.num 3]
      = .ok stats123 := by
    norm_num [analyze, coerceQ, parseNoneQ, sumOf, medianOf, varianceOf,
      round, mathRound, stats123, List.insertionSort, List.orderedInsert] <;>
    simp
  exact c8_thm parseNoneQ _ stats123 25 75 h (by norm_num) (by norm_num)
    (by norm_num)

/-- C9: on every successful result, the variance — the mean of squared
deviations from the unrounded average — is non-negative, so the square
root `Math.sqrt(variance)` the source takes to produce the returned
standard deviation is applied to a non-negative argument and yields a
well-defined real number, never NaN. -/
theorem c9_thm (parse : List Char → Option ℚ) (arr : List RawQ) (s : Stats)
    (h : analyze parse arr = .ok s) : 0 ≤ s.variance := by
  obtain ⟨hnums, hne, hsorted, hcount, hsum, havg, hmin, hmax, hrange,
    hmedian, hvar, habove, hbelow⟩ := analyze_ok_spec parse arr s h
  rw [hvar]
  unfold varianceOf
  apply div_nonneg
  · have heq : s.nums.foldl
        (fun acc v => acc + (v - sumOf s.nums / (s.nums.length : ℚ)) ^ 2) 0
        = 0 + (s.nums.map
            (fun v => (v - sumOf s.nums / (s.nums.length : ℚ)) ^ 2)).sum :=
      foldl_add_eq_sum _ s.nums 0
    rw [heq, zero_add]
    apply List.sum_nonneg
    intro x hx
    obtain ⟨v, hv, rfl⟩ := List.mem_map.mp hx
    positivity
  · exact Nat.cast_nonneg _

/-- C9, witness: the variance of the result of `analyze` at `[1, 2, 3]` is
non-negative. -/
theorem c9_witness : 0 ≤ stats123.variance :=
  c9_thm parseNoneQ [RawQ.num 1, RawQ.num 2, RawQ.num 3] stats123 (by
    norm_num [analyze, coerceQ, parseNoneQ, sumOf, medianOf, varianceOf,
      round, mathRound, stats123, List.insertionSort, List.orderedInsert] <;>
    simp)

/-- The result of `analyze` on the single input value `0.004`: the
`median` field rounds down to `0`, strictly below the input value. -/
def stats1of250 : Stats where
  nums := [1/250]
  count := 1
  sum := 0
  avg := 0
  min := 1/250
  max := 1/250
  range := 0
  median := 0
  variance := 0
  aboveAvg := []
  belowAvg := []

/-- C10, counterexample: on the single coerced value `v = 0.004` the claim
`min = max = median = v` fails: `min = max = 0.004` but the returned
`median` field is the rounded value `0 ≠ 0.004`. -/
theorem c10_cex :
    analyze parseNoneQ [RawQ.num (1/250)] = .ok stats1of250 ∧
    stats1of250.min = 1/250 ∧ stats1of250.max = 1/250 ∧
    stats1of250.median ≠ 1/250 := by
  refine ⟨?_, ?_, ?_, ?_⟩ <;>
    norm_num [analyze, coerceQ, parseNoneQ, sumOf, medianOf, varianceOf,
      round, mathRound, stats1of250, List.insertionSort, List.orderedInsert] <;>
    simp

/-- C10, amended: when exactly one value `v` survives coercion, `analyze`
succeeds with `count = 1`, `min = max = v`, the `median` field equal to
`v` rounded to 2 decimals (the exact median is `v`), `range = 0`,
variance `0` (hence standard deviation 0), both above/below-average
sequences empty, and `percentile p = v` for every rank `p` in
`[0, 100]`. -/
theorem c10_thm (parse : List Char → Option ℚ) (arr : List RawQ) (s : Stats)
    (v : ℚ) (h : analyze parse arr = .ok s)
    (hone : arr.filterMap (coerceQ parse) = [v]) :
    s.count = 1 ∧ s.min = v ∧ s.max = v ∧ s.median = round v 2 ∧
    s.range = 0 ∧ s.variance = 0 ∧ s.aboveAvg = [] ∧ s.belowAvg = [] ∧
    ∀ p, 0 ≤ p → p ≤ 100 → percentile s.nums p = some v := by
  obtain ⟨hnums, hne, hsorted, hcount, hsum, havg, hmin, hmax, hrange,
    hmedian, hvar, habove, hbelow⟩ := analyze_ok_spec parse arr s h
  have hnums1 : s.nums = [v] := by
    rw [hnums, hone]
    rfl
  have hcount1 : s.count = 1 := by
    rw [hcount, hnums1]
    rfl
  have hminv : s.min = v := by
    rw [hmin, hnums1]
    rfl
  have hmaxv : s.max = v := by
    rw [hmax, hnums1]
    rfl
  refine ⟨hcount1, hminv, hmaxv, ?_, ?_, ?_, ?_, ?_, ?_⟩
  · rw [hmedian, hnums1]
    norm_num [medianOf]
  · rw [hrange, hminv, hmaxv]
    norm_num [round, mathRound]
  · rw [hvar, hnums1]
    norm_num [varianceOf, sumOf]
  · rw [habove, hnums1]
    norm_num [sumOf]
  · rw [hbelow, hnums1]
    norm_num [sumOf]
  · intro p hp0 hp100
    rw [hnums1]
    simp only [percentile]
    rw [if_neg (by push_neg; exact ⟨hp0, hp100⟩)]
    norm_num

/-- The result of `analyze` on the single input value `7`. -/
def stats7 : Stats where
  nums := [7]
  count := 1
  sum := 7
  avg := 7
  min := 7
  max := 7
  range := 0
  median := 7
  variance := 0
  aboveAvg := []
  belowAvg := []

/-- C10, witness: the amended statement instantiated at the single input
value `7` (whose rounding is itself) and rank 30. -/
theorem c10_witness :
    stats7.count = 1 ∧ stats7.min = 7 ∧ stats7.max = 7 ∧
    stats7.median = round 7 2 ∧ stats7.range = 0 ∧ stats7.variance = 0 ∧
    stats7.aboveAvg = [] ∧ stats7.belowAvg = [] ∧
    percentile stats7.nums 30 = some 7 := by
  have h : analyze parseNoneQ [RawQ.num 7] = .ok stats7 := by
    norm_num [analyze, coerceQ, parseNoneQ, sumOf, medianOf, varianceOf,
      round, mathRound, stats7, List.insertionSort, List.orderedInsert] <;>
    simp
  have hc := c10_thm parseNoneQ [RawQ.num 7] stats7 7 h rfl
  exact ⟨hc.1, hc.2.1, hc.2.2.1, hc.2.2.2.1, hc.2.2.2.2.1, hc.2.2.2.2.2.1,
    hc.2.2.2.2.2.2.1, hc.2.2.2.2.2.2.2.1,
    hc.2.2.2.2.2.2.2.2 30 (by norm_num) (by norm_num)⟩

end Analyzer
